import Mathlib

/-!
Shallow embedding of the blog CRUD server in `src/server.js`.

The server keeps a single SQLite table `posts` with columns
`id INTEGER PRIMARY KEY AUTOINCREMENT, title TEXT NOT NULL,
content TEXT NOT NULL, author TEXT DEFAULT 'Anonymous',
created_at DATETIME, updated_at DATETIME`, and registers four Express
route handlers (list, create, update, delete).  We model the table as a
list of rows kept in rowid (insertion) order together with the
AUTOINCREMENT sequence counter `nextId` (SQLite's AUTOINCREMENT never
hands out a key smaller than or equal to any key it has handed out
before, even after deletions).  Timestamps (`CURRENT_TIMESTAMP`) are
modelled as abstract clock readings of type `Nat`; each write
operation carries the clock value the server would read at that moment.
Request bodies are JSON, so `title`, `content`, `author` are each either
absent or a string; JavaScript truthiness (`!title`) treats both absence
and the empty string as falsy.
-/

namespace Blog

/-- One row of the `posts` table. -/
structure Row where
  id : Nat
  title : String
  content : String
  author : String
  created_at : Nat
  updated_at : Nat
deriving Repr, DecidableEq

/-- The database state: the rows of `posts` in rowid (insertion) order,
plus the AUTOINCREMENT sequence (the next key to assign). -/
structure DB where
  rows : List Row
  nextId : Nat
deriving Repr, DecidableEq

/-- A freshly created database file: empty table, AUTOINCREMENT starts at 1. -/
def DB.empty : DB := ⟨[], 1⟩

/-- A JSON request body for create/update: each field is absent or a string. -/
structure ReqBody where
  title : Option String
  content : Option String
  author : Option String
deriving Repr, DecidableEq

/-- JavaScript truthiness test used by `!title`, `!content` and
`author || 'Anonymous'`: an absent field and the empty string are falsy. -/
def falsy : Option String → Bool
  | none => true
  | some s => s == ""

/-- The value `author || 'Anonymous'` passed to the INSERT/UPDATE statements. -/
def authorOrAnon (a : Option String) : String :=
  if falsy a then "Anonymous" else a.getD ""

/-- The JSON Post object the handlers serialize: all six fields.
`createdAt`/`updatedAt` are the clock readings that
`new Date(row.created_at).toISOString()` renders as ISO-8601 strings. -/
structure Post where
  id : Nat
  title : String
  content : String
  author : String
  createdAt : Nat
  updatedAt : Nat
deriving Repr, DecidableEq

/-- Row-to-JSON conversion performed inline by every handler. -/
def rowToPost (r : Row) : Post :=
  ⟨r.id, r.title, r.content, r.author, r.created_at, r.updated_at⟩

/-- The HTTP responses the handlers produce. -/
inductive Resp where
  | ok (posts : List Post)
  | created (p : Post)
  | updated (p : Post)
  | deletedOk (message : String) (id : Nat)
  | badRequest (error : String)
  | notFound (error : String)
  | serverError (error : String)
deriving Repr, DecidableEq

/-- The HTTP status code of a response
(`res.json` without `res.status` is 200). -/
def Resp.status : Resp → Nat
  | .ok _ => 200
  | .created _ => 201
  | .updated _ => 200
  | .deletedOk _ _ => 200
  | .badRequest _ => 400
  | .notFound _ => 404
  | .serverError _ => 500

/-- `ORDER BY created_at DESC`: stable insertion of a row into a list already
sorted by `created_at` descending.  SQLite scans the table in rowid order and
its sorter keeps rows with equal keys in scan order, so a row is placed after
every row with a strictly greater key and before the rest. -/
def insertDesc (r : Row) : List Row → List Row
  | [] => [r]
  | x :: xs => if r.created_at < x.created_at then x :: insertDesc r xs else r :: x :: xs

/-- Stable sort of the table by `created_at` descending (rows with equal
`created_at` stay in rowid order). -/
def sortDesc : List Row → List Row
  | [] => []
  | x :: xs => insertDesc x (sortDesc xs)

/-- `GET /api/posts`: `SELECT * FROM posts ORDER BY created_at DESC`,
each row mapped to the JSON Post shape. -/
def getPosts (db : DB) : Resp :=
  .ok ((sortDesc db.rows).map rowToPost)

/-- `POST /api/posts`.  Validates `!title || !content`, then INSERTs one row
with `author || 'Anonymous'` and both timestamps set to the current time,
then re-reads the row by `this.lastID` to build the 201 body.  `fetchOk`
models whether that read-back query succeeds (its error branch answers 500
even though the INSERT has already been applied). -/
def createPost (db : DB) (now : Nat) (b : ReqBody) (fetchOk : Bool) : Resp × DB :=
  if falsy b.title || falsy b.content then
    (.badRequest "Title and content are required", db)
  else
    let r : Row := ⟨db.nextId, b.title.getD "", b.content.getD "", authorOrAnon b.author, now, now⟩
    let db' : DB := ⟨db.rows ++ [r], db.nextId + 1⟩
    if fetchOk then
      (.created (rowToPost r), db')
    else
      (.serverError "Failed to fetch created post", db')

/-- The row rewrite performed by
`UPDATE posts SET title = ?, content = ?, author = ?, updated_at = CURRENT_TIMESTAMP WHERE id = ?`. -/
def applyUpdate (pid : Nat) (now : Nat) (b : ReqBody) (r : Row) : Row :=
  if r.id = pid then
    { r with title := b.title.getD "", content := b.content.getD "",
             author := authorOrAnon b.author, updated_at := now }
  else r

/-- `PUT /api/posts/:id`.  Validates `!title || !content`, runs the UPDATE,
answers 404 when `this.changes === 0`, otherwise re-reads the row by id for
the 200 body; `fetchOk` models whether that read-back succeeds. -/
def updatePost (db : DB) (now : Nat) (pid : Nat) (b : ReqBody) (fetchOk : Bool) : Resp × DB :=
  if falsy b.title || falsy b.content then
    (.badRequest "Title and content are required", db)
  else
    let rows' := db.rows.map (applyUpdate pid now b)
    let db' : DB := ⟨rows', db.nextId⟩
    if db.rows.countP (fun r => r.id = pid) = 0 then
      (.notFound "Post not found", db)
    else if fetchOk then
      match rows'.find? (fun r => r.id == pid) with
      | some r => (.updated (rowToPost r), db')
      | none => (.serverError "Failed to fetch updated post", db')
    else
      (.serverError "Failed to fetch updated post", db')

/-- `DELETE /api/posts/:id`: `DELETE FROM posts WHERE id = ?`, 404 when
`this.changes === 0`, otherwise 200 with the confirmation body. -/
def deletePost (db : DB) (pid : Nat) : Resp × DB :=
  if db.rows.countP (fun r => r.id = pid) = 0 then
    (.notFound "Post not found", db)
  else
    (.deletedOk "Post deleted successfully" pid, ⟨db.rows.filter (fun r => r.id ≠ pid), db.nextId⟩)

/-- The seed row text inserted by `initializeDatabase` when the table is empty. -/
def seedBody : ReqBody :=
  ⟨some "Welcome to My Blog",
   some "This is my first blog post! I\x27m excited to share my thoughts and experiences with you.",
   some "Blog Owner"⟩

/-- `initializeDatabase` after the table exists: count the rows and, only when
the count is zero, INSERT the one fixed seed post with both timestamps set to
the current time. -/
def initializeDatabase (db : DB) (now : Nat) : DB :=
  if db.rows.length = 0 then
    ⟨db.rows ++ [⟨db.nextId, seedBody.title.getD "", seedBody.content.getD "",
                  seedBody.author.getD "", now, now⟩], db.nextId + 1⟩
  else db

/-! ### Routing

Express matches a request against the registered routes in order; a route
matches when the method agrees and the path has the same number of segments,
with literal segments equal and `:param` segments matching anything. -/

/-- HTTP methods used by the app. -/
inductive Method where
  | GET | POST | PUT | DELETE
deriving Repr, DecidableEq, BEq

/-- A segment of a route pattern: a literal or a `:name` parameter. -/
inductive Seg where
  | lit (s : String)
  | param (name : String)
deriving Repr, DecidableEq, BEq

/-- A registered route. -/
structure Route where
  method : Method
  pattern : List Seg
deriving Repr, DecidableEq, BEq

/-- The five `app.get/post/put/delete` registrations in `src/server.js`
(the static middleware and the four API routes; no other route is
registered). -/
def registeredRoutes : List Route :=
  [⟨.GET, [.lit "api", .lit "posts"]⟩,
   ⟨.POST, [.lit "api", .lit "posts"]⟩,
   ⟨.PUT, [.lit "api", .lit "posts", .param "id"]⟩,
   ⟨.DELETE, [.lit "api", .lit "posts", .param "id"]⟩]

/-- The endpoint list printed by `startServer` on startup. -/
def advertisedEndpoints : List (Method × List Seg) :=
  [(.GET, [.lit "api", .lit "posts"]),
   (.GET, [.lit "api", .lit "posts", .param "id"]),
   (.POST, [.lit "api", .lit "posts"]),
   (.PUT, [.lit "api", .lit "posts", .param "id"]),
   (.DELETE, [.lit "api", .lit "posts", .param "id"])]

/-- Whether one pattern segment accepts one concrete path segment. -/
def segMatches : Seg → String → Bool
  | .lit s, t => s == t
  | .param _, _ => true

/-- Whether a registered route serves a request with the given method and
path segments. -/
def routeMatches (r : Route) (m : Method) (path : List String) : Bool :=
  r.method == m && r.pattern.length == path.length &&
    (List.zip r.pattern path).all (fun st => segMatches st.1 st.2)

/-! ### Operation sequences -/

/-- One client operation against the API, carrying the server clock reading
at which its SQL statement executes. -/
inductive Op where
  | create (now : Nat) (b : ReqBody)
  | update (now : Nat) (pid : Nat) (b : ReqBody)
  | delete (pid : Nat)
  | list
deriving Repr, DecidableEq

/-- Execute one operation (read-back queries succeed). -/
def exec (db : DB) : Op → Resp × DB
  | .create now b => createPost db now b true
  | .update now pid b => updatePost db now pid b true
  | .delete pid => deletePost db pid
  | .list => (getPosts db, db)

/-- Run a sequence of operations, keeping only the final state. -/
def execTrace (db : DB) : List Op → DB
  | [] => db
  | op :: ops => execTrace (exec db op).2 ops

/-- The ids assigned by the successful creates of a trace, in order. -/
def createdIds (db : DB) : List Op → List Nat
  | [] => []
  | op :: ops =>
    (match (exec db op).1 with
     | .created p => [p.id]
     | _ => []) ++ createdIds (exec db op).2 ops

/-- The Posts a response hands to the client. -/
def respPosts : Resp → List Post
  | .ok l => l
  | .created p => [p]
  | .updated p => [p]
  | _ => []

/-- Every Post handed to the client along a trace. -/
def tracePosts (db : DB) : List Op → List Post
  | [] => []
  | op :: ops => respPosts (exec db op).1 ++ tracePosts (exec db op).2 ops

/-- The clock reading an operation carries, if it performs a write. -/
def Op.time : Op → Option Nat
  | .create now _ => some now
  | .update now _ _ => some now
  | _ => none

/-- The server clock never runs backwards along the trace: every write time
is at least `t` and the write times are non-decreasing. -/
def Chrono : Nat → List Op → Prop
  | _, [] => True
  | t, op :: ops =>
    match op.time with
    | none => Chrono t ops
    | some u => t ≤ u ∧ Chrono u ops

/-- Rows are well-formed at clock reading `t`: creation does not postdate the
last update and no stored time postdates the clock. -/
def GoodRows (db : DB) (t : Nat) : Prop :=
  ∀ r ∈ db.rows, r.created_at ≤ r.updated_at ∧ r.updated_at ≤ t

/-- Structural invariant of every reachable database: rows are stored in
strictly increasing rowid order and every rowid is below the
AUTOINCREMENT counter. -/
def Inv (db : DB) : Prop :=
  db.rows.Pairwise (fun a b => a.id < b.id) ∧ ∀ r ∈ db.rows, r.id < db.nextId

/-- The ordering the spec claims for the listing: `createdAt` descending with
ties broken by `id` descending. -/
def tieIdDesc (l : List Post) : Prop :=
  l.Pairwise (fun p q => q.createdAt < p.createdAt ∨ (p.createdAt = q.createdAt ∧ q.id < p.id))

/-- A database reached by two valid creates executed at the same clock
reading (two requests inside the same `CURRENT_TIMESTAMP` second). -/
def twoSameTime : DB :=
  (createPost (createPost DB.empty 7 ⟨some "A", some "B", none⟩ true).2
    7 ⟨some "C", some "D", none⟩ true).2

/-! ## Theorems -/

/-- Claim C1: the create handler answers 400 with the explanatory error body
and leaves the table unchanged exactly when `title` or `content` is absent or
empty; when both are present and non-empty the response is never 400. -/
theorem create_validation_iff (db : DB) (now : Nat) (b : ReqBody) (fetchOk : Bool) :
    (createPost db now b fetchOk = (.badRequest "Title and content are required", db)
      ↔ (falsy b.title = true ∨ falsy b.content = true)) ∧
    ((falsy b.title = false ∧ falsy b.content = false) →
      (createPost db now b fetchOk).1.status ≠ 400) := by
  unfold createPost
  by_cases ht : falsy b.title <;> by_cases hc : falsy b.content <;>
    cases fetchOk <;> simp [ht, hc, Resp.status]

/-- Witness for C1 at a concrete valid request. -/
theorem create_validation_iff_witness :
    (createPost DB.empty 3 ⟨some "t", some "c", none⟩ true).1.status ≠ 400 :=
  (create_validation_iff DB.empty 3 ⟨some "t", some "c", none⟩ true).2 (by decide)

/-- Counterexample to claim C2 as stated: the request
`{title:"Hello", content:"World content here", author:""}` supplies an author
(it is present, merely empty), yet the inserted row and the 201 body carry
author `"Anonymous"`, not the supplied `""`, because `author || 'Anonymous'`
treats the empty string as falsy. -/
theorem create_author_empty_cex :
    (createPost DB.empty 5 ⟨some "Hello", some "World content here", some ""⟩ true).1 =
      .created ⟨1, "Hello", "World content here", "Anonymous", 5, 5⟩ ∧
    (createPost DB.empty 5 ⟨some "Hello", some "World content here", some ""⟩ true).2.rows.map
      Row.author ≠ [""] := by
  constructor
  · rfl
  · decide

/-- Claim C2 (amended): for a valid create request exactly one row is appended,
its author is the supplied author when that is present and non-empty and
`"Anonymous"` otherwise, its `created_at` and `updated_at` both equal the
current server time, and the response is 201 carrying the persisted Post whose
id is the key the AUTOINCREMENT sequence assigned. -/
theorem create_success (db : DB) (now : Nat) (b : ReqBody)
    (ht : falsy b.title = false) (hc : falsy b.content = false) :
    createPost db now b true =
      (.created (rowToPost ⟨db.nextId, b.title.getD "", b.content.getD "",
          authorOrAnon b.author, now, now⟩),
       ⟨db.rows ++ [⟨db.nextId, b.title.getD "", b.content.getD "",
          authorOrAnon b.author, now, now⟩], db.nextId + 1⟩) ∧
    (createPost db now b true).1.status = 201 ∧
    (createPost db now b true).2.rows.length = db.rows.length + 1 := by
  unfold createPost
  simp [ht, hc, Resp.status]

/-- Witness for C2 at a concrete valid request. -/
theorem create_success_witness :
    createPost DB.empty 5 ⟨some "Hello", some "World content here", none⟩ true =
      (.created (rowToPost ⟨1, "Hello", "World content here", "Anonymous", 5, 5⟩),
       ⟨[⟨1, "Hello", "World content here", "Anonymous", 5, 5⟩], 2⟩) ∧
    (createPost DB.empty 5 ⟨some "Hello", some "World content here", none⟩ true).1.status = 201 ∧
    (createPost DB.empty 5 ⟨some "Hello", some "World content here", none⟩ true).2.rows.length =
      ([] : List Row).length + 1 :=
  create_success DB.empty 5 ⟨some "Hello", some "World content here", none⟩ (by decide) (by decide)

/-- Claim C4: deleting an id that matches a row answers 200 with the success
message and the id and removes the matching rows; deleting an id with no
matching row answers 404 and changes nothing; hence deleting the same id twice
answers 200 then 404. -/
theorem delete_spec (db : DB) (pid : Nat) :
    ((∀ r ∈ db.rows, r.id ≠ pid) → deletePost db pid = (.notFound "Post not found", db)) ∧
    ((∃ r ∈ db.rows, r.id = pid) →
      (deletePost db pid).1 = .deletedOk "Post deleted successfully" pid ∧
      (deletePost db pid).1.status = 200 ∧
      (deletePost db pid).2.rows = db.rows.filter (fun r => r.id ≠ pid) ∧
      deletePost (deletePost db pid).2 pid = (.notFound "Post not found", (deletePost db pid).2)) := by
  constructor
  · intro h
    unfold deletePost
    rw [if_pos]
    rw [List.countP_eq_zero]
    intro r hr
    simpa using h r hr
  · intro ⟨r, hr, hrid⟩
    have hpos : db.rows.countP (fun r => r.id = pid) ≠ 0 := by
      have : 0 < db.rows.countP (fun r => r.id = pid) := by
        rw [List.countP_pos_iff]
        exact ⟨r, hr, by simpa using hrid⟩
      omega
    unfold deletePost
    rw [if_neg hpos]
    refine ⟨rfl, rfl, rfl, ?_⟩
    rw [if_pos]
    rw [List.countP_eq_zero]
    intro s hs
    have := List.of_mem_filter hs
    simpa using this

/-- Witness for C4 at a concrete database holding the row with id 1. -/
theorem delete_spec_witness :
    (deletePost ⟨[⟨1, "t", "c", "a", 0, 0⟩], 2⟩ 1).1 = .deletedOk "Post deleted successfully" 1 ∧
    (deletePost ⟨[⟨1, "t", "c", "a", 0, 0⟩], 2⟩ 1).1.status = 200 ∧
    (deletePost ⟨[⟨1, "t", "c", "a", 0, 0⟩], 2⟩ 1).2.rows =
      ([⟨1, "t", "c", "a", 0, 0⟩] : List Row).filter (fun r => r.id ≠ 1) ∧
    deletePost (deletePost ⟨[⟨1, "t", "c", "a", 0, 0⟩], 2⟩ 1).2 1 =
      (.notFound "Post not found", (deletePost ⟨[⟨1, "t", "c", "a", 0, 0⟩], 2⟩ 1).2) := by
  have hmem : (⟨1, "t", "c", "a", 0, 0⟩ : Row) ∈ (⟨[⟨1, "t", "c", "a", 0, 0⟩], 2⟩ : DB).rows := by
    simp
  exact (delete_spec ⟨[⟨1, "t", "c", "a", 0, 0⟩], 2⟩ 1).2 ⟨⟨1, "t", "c", "a", 0, 0⟩, hmem, rfl⟩

/-- Claim C7: on a fresh empty database the initializer inserts exactly one
seed post authored by "Blog Owner" with key 1 and equal timestamps, and a
database that already holds rows is returned unchanged, never reseeded. -/
theorem initialize_seeds_once (now : Nat) :
    (initializeDatabase DB.empty now).rows =
      [⟨1, "Welcome to My Blog",
        "This is my first blog post! I\x27m excited to share my thoughts and experiences with you.",
        "Blog Owner", now, now⟩] ∧
    ((initializeDatabase DB.empty now).rows.map Row.author = ["Blog Owner"]) ∧
    (∀ db : DB, db.rows ≠ [] → initializeDatabase db now = db) := by
  refine ⟨rfl, rfl, ?_⟩
  intro db hne
  unfold initializeDatabase
  rw [if_neg]
  simpa using hne

/-- Witness for C7: a database holding one row is not reseeded. -/
theorem initialize_seeds_once_witness :
    initializeDatabase ⟨[⟨1, "t", "c", "a", 0, 0⟩], 2⟩ 9 = ⟨[⟨1, "t", "c", "a", 0, 0⟩], 2⟩ :=
  (initialize_seeds_once 9).2.2 ⟨[⟨1, "t", "c", "a", 0, 0⟩], 2⟩ (by simp)

/-- Claim C9: the startup log advertises `GET /api/posts/:id`, but no
registered route serves a GET request of the form `/api/posts/<seg>`:
the only GET route has two path segments and the three-segment routes are
registered for PUT and DELETE only. -/
theorem no_get_by_id_route :
    (Method.GET, [Seg.lit "api", Seg.lit "posts", Seg.param "id"]) ∈ advertisedEndpoints ∧
    ∀ seg : String,
      registeredRoutes.all (fun r => !(routeMatches r .GET ["api", "posts", seg])) = true := by
  constructor
  · exact List.Mem.tail _ (List.Mem.head _)
  · intro seg
    simp [registeredRoutes, routeMatches]
    exact ⟨Or.inl (by decide), Or.inl (by decide)⟩

/-- Counterexample evaluation for C10 is not needed; the claim is about the
read-back failure path.  Claim C10: when the read-back query after a
successful INSERT or a successful UPDATE fails, the handler answers 500 even
though the write is already in the table, so a 500 from create or update does
not imply the stored state is unchanged. -/
theorem readback_failure_500_after_write (db : DB) (now pid : Nat) (b : ReqBody)
    (ht : falsy b.title = false) (hc : falsy b.content = false) :
    ((createPost db now b false).1.status = 500 ∧
      (createPost db now b false).2.rows =
        db.rows ++ [⟨db.nextId, b.title.getD "", b.content.getD "",
          authorOrAnon b.author, now, now⟩] ∧
      (createPost db now b false).2.rows.length = db.rows.length + 1) ∧
    (db.rows.countP (fun r => r.id = pid) ≠ 0 →
      (updatePost db now pid b false).1.status = 500 ∧
      (updatePost db now pid b false).2.rows = db.rows.map (applyUpdate pid now b)) := by
  constructor
  · unfold createPost
    simp [ht, hc, Resp.status]
  · intro hpos
    unfold updatePost
    simp [ht, hc, hpos, Resp.status]

/-- The order in which `ORDER BY created_at DESC` actually emits rows:
`created_at` descending, rows with equal `created_at` in rowid
(insertion) order. -/
def rord (a b : Row) : Prop :=
  b.created_at < a.created_at ∨ (a.created_at = b.created_at ∧ a.id < b.id)

/-- Inserting into the sorted prefix only rearranges: the result is a
permutation of consing the row. -/
theorem insertDesc_perm (r : Row) (l : List Row) : (insertDesc r l).Perm (r :: l) := by
  induction l with
  | nil => exact List.Perm.refl _
  | cons y ys ih =>
    unfold insertDesc
    split
    · exact (ih.cons y).trans (List.Perm.swap r y ys)
    · exact List.Perm.refl _

/-- The stable sort returns exactly the table's rows. -/
theorem sortDesc_perm (l : List Row) : (sortDesc l).Perm l := by
  induction l with
  | nil => exact List.Perm.refl _
  | cons x xs ih => exact (insertDesc_perm x (sortDesc xs)).trans (ih.cons x)

/-- Stable insertion keeps the output totally ordered by `rord` when the
inserted row's rowid is below every rowid already present. -/
theorem insertDesc_pairwise {r : Row} {l : List Row}
    (hl : l.Pairwise rord) (hid : ∀ x ∈ l, r.id < x.id) :
    (insertDesc r l).Pairwise rord := by
  induction l with
  | nil => simp [insertDesc]
  | cons x xs ih =>
    rcases List.pairwise_cons.mp hl with ⟨hx, hxs⟩
    unfold insertDesc
    split
    · rename_i hlt
      refine List.pairwise_cons.mpr ⟨?_, ih hxs (fun y hy => hid y (List.mem_cons_of_mem x hy))⟩
      intro z hz
      rcases List.mem_cons.mp ((insertDesc_perm r xs).mem_iff.mp hz) with rfl | hzxs
      · exact Or.inl hlt
      · exact hx z hzxs
    · rename_i hge
      have hle : x.created_at ≤ r.created_at := Nat.le_of_not_lt hge
      refine List.pairwise_cons.mpr ⟨?_, hl⟩
      intro z hz
      rcases List.mem_cons.mp hz with rfl | hzxs
      · have hidx := hid z (List.mem_cons_self z xs)
        simp only [rord]
        omega
      · have hxz := hx z hzxs
        have hidz := hid z (List.mem_cons_of_mem x hzxs)
        simp only [rord] at hxz ⊢
        omega

/-- Sorting a table whose rows are in strictly increasing rowid order yields
output totally ordered by `rord`. -/
theorem sortDesc_pairwise {l : List Row} (h : l.Pairwise (fun a b => a.id < b.id)) :
    (sortDesc l).Pairwise rord := by
  induction l with
  | nil => simp [sortDesc]
  | cons x xs ih =>
    rcases List.pairwise_cons.mp h with ⟨hx, hxs⟩
    exact insertDesc_pairwise (ih hxs) (fun y hy => hx y ((sortDesc_perm xs).mem_iff.mp hy))

/-- Counterexample to claim C5 as stated: after two valid creates within the
same `CURRENT_TIMESTAMP` second, the listing returns the tied rows in id
ASCENDING order (1 before 2), not the claimed id-descending order. -/
theorem list_tie_order_cex :
    getPosts twoSameTime =
      .ok [⟨1, "A", "B", "Anonymous", 7, 7⟩, ⟨2, "C", "D", "Anonymous", 7, 7⟩] ∧
    ¬ tieIdDesc [⟨1, "A", "B", "Anonymous", 7, 7⟩, ⟨2, "C", "D", "Anonymous", 7, 7⟩] := by
  constructor
  · rfl
  · intro h
    rcases List.pairwise_cons.mp h with ⟨hx, -⟩
    have := hx ⟨2, "C", "D", "Anonymous", 7, 7⟩ (List.mem_cons_self _ _)
    simp at this

/-- Claim C5 (amended): for every database whose rows are stored in strictly
increasing rowid order (as every reachable state is), the listing returns all
rows — a permutation of the table — ordered by `createdAt` descending with
rows of equal `createdAt` in insertion order, i.e. by `id` ascending. -/
theorem list_sorted (db : DB) (h : db.rows.Pairwise (fun a b => a.id < b.id)) :
    getPosts db = .ok ((sortDesc db.rows).map rowToPost) ∧
    ((sortDesc db.rows).map rowToPost).Perm (db.rows.map rowToPost) ∧
    ((sortDesc db.rows).map rowToPost).Pairwise
      (fun p q => q.createdAt < p.createdAt ∨ (p.createdAt = q.createdAt ∧ p.id < q.id)) := by
  refine ⟨rfl, (sortDesc_perm db.rows).map rowToPost, ?_⟩
  rw [List.pairwise_map]
  exact (sortDesc_pairwise h).imp (fun hab => hab)

/-- Witness for C5 at the concrete two-row database. -/
theorem list_sorted_witness :
    getPosts twoSameTime = .ok ((sortDesc twoSameTime.rows).map rowToPost) ∧
    ((sortDesc twoSameTime.rows).map rowToPost).Perm (twoSameTime.rows.map rowToPost) ∧
    ((sortDesc twoSameTime.rows).map rowToPost).Pairwise
      (fun p q => q.createdAt < p.createdAt ∨ (p.createdAt = q.createdAt ∧ p.id < q.id)) :=
  list_sorted twoSameTime (by decide)

/-- The UPDATE statement never changes a row's primary key. -/
theorem applyUpdate_id (pid now : Nat) (b : ReqBody) (r : Row) :
    (applyUpdate pid now b r).id = r.id := by
  unfold applyUpdate; split <;> rfl

/-- The UPDATE statement never changes a row's `created_at`. -/
theorem applyUpdate_created_at (pid now : Nat) (b : ReqBody) (r : Row) :
    (applyUpdate pid now b r).created_at = r.created_at := by
  unfold applyUpdate; split <;> rfl

/-- Counterexample to claim C3 as stated: updating the existing row 1 with
`{title:"T2", content:"C2", author:""}` supplies an author (present, merely
empty), yet the row is stored and returned with author `"Anonymous"`, because
`author || 'Anonymous'` treats the empty string as falsy. -/
theorem update_author_empty_cex :
    (updatePost ⟨[⟨1, "T", "C", "Ann", 5, 5⟩], 2⟩ 6 1 ⟨some "T2", some "C2", some ""⟩ true).1 =
      .updated ⟨1, "T2", "C2", "Anonymous", 5, 6⟩ ∧
    (updatePost ⟨[⟨1, "T", "C", "Ann", 5, 5⟩], 2⟩ 6 1
        ⟨some "T2", some "C2", some ""⟩ true).2.rows.map Row.author ≠ [""] := by
  decide

/-- Claim C3 (amended): for a valid body, updating an id that matches no row
answers 404 and changes nothing; otherwise the response is 200 with the
updated Post, and the UPDATE overwrites exactly `title`, `content`, `author`
(the supplied author when present and non-empty, `"Anonymous"` otherwise) and
`updated_at`, while `id` and `created_at` never change and rows with a
different id are untouched. -/
theorem update_spec (db : DB) (now pid : Nat) (b : ReqBody)
    (ht : falsy b.title = false) (hc : falsy b.content = false) :
    ((∀ r ∈ db.rows, r.id ≠ pid) →
      updatePost db now pid b true = (.notFound "Post not found", db)) ∧
    (∀ r₀, db.rows.find? (fun r => r.id == pid) = some r₀ →
      updatePost db now pid b true =
        (.updated (rowToPost (applyUpdate pid now b r₀)),
         ⟨db.rows.map (applyUpdate pid now b), db.nextId⟩)) ∧
    (∀ r : Row, (applyUpdate pid now b r).id = r.id ∧
      (applyUpdate pid now b r).created_at = r.created_at) ∧
    (∀ r : Row, r.id ≠ pid → applyUpdate pid now b r = r) ∧
    (∀ r : Row, r.id = pid → applyUpdate pid now b r =
      { r with title := b.title.getD "", content := b.content.getD "",
               author := authorOrAnon b.author, updated_at := now }) := by
  refine ⟨?_, ?_, ?_, ?_, ?_⟩
  · intro h
    have hz : db.rows.countP (fun r => r.id = pid) = 0 := by
      rw [List.countP_eq_zero]
      intro r hr
      simpa using h r hr
    simp [updatePost, ht, hc, hz]
  · intro r₀ h₀
    have hmem := List.mem_of_find?_eq_some h₀
    have hpr : r₀.id = pid := by simpa using List.find?_some h₀
    have hz : ¬ db.rows.countP (fun r => r.id = pid) = 0 := by
      have : 0 < db.rows.countP (fun r => r.id = pid) := by
        rw [List.countP_pos_iff]
        exact ⟨r₀, hmem, by simpa using hpr⟩
      omega
    have hfind : (db.rows.map (applyUpdate pid now b)).find? (fun r => r.id == pid)
        = some (applyUpdate pid now b r₀) := by
      rw [List.find?_map]
      have hcomp : ((fun r : Row => r.id == pid) ∘ applyUpdate pid now b)
          = fun r : Row => r.id == pid := by
        funext r
        simp [Function.comp, applyUpdate_id]
      rw [hcomp, h₀]
      rfl
    simp [updatePost, ht, hc, hz, hfind]
  · exact fun r => ⟨applyUpdate_id pid now b r, applyUpdate_created_at pid now b r⟩
  · intro r h
    unfold applyUpdate
    rw [if_neg h]
  · intro r h
    unfold applyUpdate
    rw [if_pos h]

/-- Witness for C3 at a concrete database holding the row with id 1. -/
theorem update_spec_witness :
    updatePost ⟨[⟨1, "T", "C", "Ann", 5, 5⟩], 2⟩ 6 1 ⟨some "T2", some "C2", none⟩ true =
      (.updated (rowToPost (applyUpdate 1 6 ⟨some "T2", some "C2", none⟩
          ⟨1, "T", "C", "Ann", 5, 5⟩)),
       ⟨([⟨1, "T", "C", "Ann", 5, 5⟩] : List Row).map (applyUpdate 1 6 ⟨some "T2", some "C2", none⟩),
        2⟩) :=
  (update_spec ⟨[⟨1, "T", "C", "Ann", 5, 5⟩], 2⟩ 6 1 ⟨some "T2", some "C2", none⟩
    (by decide) (by decide)).2.1 ⟨1, "T", "C", "Ann", 5, 5⟩ (by decide)

/-- Witness for C10 at a concrete valid body and a matching row. -/
theorem readback_failure_500_after_write_witness :
    ((createPost ⟨[⟨1, "t", "c", "a", 0, 0⟩], 2⟩ 4 ⟨some "T", some "C", none⟩ false).1.status = 500 ∧
      (createPost ⟨[⟨1, "t", "c", "a", 0, 0⟩], 2⟩ 4 ⟨some "T", some "C", none⟩ false).2.rows =
        [⟨1, "t", "c", "a", 0, 0⟩] ++ [⟨2, "T", "C", "Anonymous", 4, 4⟩] ∧
      (createPost ⟨[⟨1, "t", "c", "a", 0, 0⟩], 2⟩ 4 ⟨some "T", some "C", none⟩ false).2.rows.length =
        ([⟨1, "t", "c", "a", 0, 0⟩] : List Row).length + 1) ∧
    ((updatePost ⟨[⟨1, "t", "c", "a", 0, 0⟩], 2⟩ 4 1 ⟨some "T", some "C", none⟩ false).1.status = 500 ∧
      (updatePost ⟨[⟨1, "t", "c", "a", 0, 0⟩], 2⟩ 4 1 ⟨some "T", some "C", none⟩ false).2.rows =
        ([⟨1, "t", "c", "a", 0, 0⟩] : List Row).map (applyUpdate 1 4 ⟨some "T", some "C", none⟩)) := by
  have h := readback_failure_500_after_write ⟨[⟨1, "t", "c", "a", 0, 0⟩], 2⟩ 4 1
    ⟨some "T", some "C", none⟩ (by decide) (by decide)
  exact ⟨⟨h.1.1, by simpa using h.1.2.1, by simpa using h.1.2.2⟩, h.2 (by decide)⟩

/-- A response `201 Created` can only come from a valid create; it carries the
key the AUTOINCREMENT sequence currently holds, and the sequence advances. -/
theorem exec_created {db : DB} {op : Op} {p : Post}
    (h : (exec db op).1 = .created p) :
    p.id = db.nextId ∧ (exec db op).2.nextId = db.nextId + 1 := by
  cases op with
  | create now b =>
    by_cases ht : falsy b.title
    · simp [exec, createPost, ht] at h
    · by_cases hc : falsy b.content
      · simp [exec, createPost, ht, hc] at h
      · have h' : rowToPost ⟨db.nextId, b.title.getD "", b.content.getD "",
            authorOrAnon b.author, now, now⟩ = p := by
          simpa [exec, createPost, ht, hc] using h
        refine ⟨?_, by simp [exec, createPost, ht, hc]⟩
        rw [← h']
        rfl
  | update now pid b =>
    exfalso
    by_cases ht : falsy b.title
    · simp [exec, updatePost, ht] at h
    · by_cases hc : falsy b.content
      · simp [exec, updatePost, ht, hc] at h
      · by_cases hz : db.rows.countP (fun r => r.id = pid) = 0
        · simp [exec, updatePost, ht, hc, hz] at h
        · rcases hf : (db.rows.map (applyUpdate pid now b)).find? (fun r => r.id == pid) with _ | r
          · simp [exec, updatePost, ht, hc, hz, hf] at h
          · simp [exec, updatePost, ht, hc, hz, hf] at h
  | delete pid =>
    exfalso
    by_cases hz : db.rows.countP (fun r => r.id = pid) = 0
    · simp [exec, deletePost, hz] at h
    · simp [exec, deletePost, hz] at h
  | list =>
    exfalso
    simp [exec, getPosts] at h

/-- No operation ever decreases the AUTOINCREMENT sequence. -/
theorem nextId_le_exec (db : DB) (op : Op) : db.nextId ≤ (exec db op).2.nextId := by
  cases op with
  | create now b =>
    by_cases ht : falsy b.title
    · simp [exec, createPost, ht]
    · by_cases hc : falsy b.content
      · simp [exec, createPost, ht, hc]
      · simp [exec, createPost, ht, hc]
  | update now pid b =>
    by_cases ht : falsy b.title
    · simp [exec, updatePost, ht]
    · by_cases hc : falsy b.content
      · simp [exec, updatePost, ht, hc]
      · by_cases hz : db.rows.countP (fun r => r.id = pid) = 0
        · simp [exec, updatePost, ht, hc, hz]
        · rcases hf : (db.rows.map (applyUpdate pid now b)).find? (fun r => r.id == pid) with _ | r
          · simp [exec, updatePost, ht, hc, hz, hf]
          · simp [exec, updatePost, ht, hc, hz, hf]
  | delete pid =>
    by_cases hz : db.rows.countP (fun r => r.id = pid) = 0
    · simp [exec, deletePost, hz]
    · simp [exec, deletePost, hz]
  | list => simp [exec]

/-- Every id a trace assigns is at least the sequence value it starts from. -/
theorem createdIds_lb (db : DB) (ops : List Op) :
    ∀ a ∈ createdIds db ops, db.nextId ≤ a := by
  induction ops generalizing db with
  | nil => simp [createdIds]
  | cons op ops ih =>
    intro a ha
    simp only [createdIds, List.mem_append] at ha
    rcases ha with ha | ha
    · split at ha
      · rename_i p heq
        simp at ha
        have h2 := exec_created heq
        omega
      · simp at ha
    · exact le_trans (nextId_le_exec db op) (ih (exec db op).2 a ha)

/-- The ids assigned along any trace are strictly increasing. -/
theorem createdIds_pairwise (db : DB) (ops : List Op) :
    (createdIds db ops).Pairwise (· < ·) := by
  induction ops generalizing db with
  | nil => simp [createdIds]
  | cons op ops ih =>
    simp only [createdIds]
    rw [List.pairwise_append]
    refine ⟨?_, ih (exec db op).2, ?_⟩
    · split
      · exact List.pairwise_singleton _ _
      · exact List.Pairwise.nil
    · intro a ha b hb
      split at ha
      · rename_i p heq
        simp at ha
        have h2 := exec_created heq
        have h3 := createdIds_lb (exec db op).2 ops b hb
        omega
      · simp at ha

/-- Claim C8: starting from any database satisfying the reachable-state
invariant, the ids assigned by the successful creates of any operation
sequence are pairwise distinct and strictly increasing in order of
assignment, and every id already in the table — hence also every id later
deleted — is strictly below every id assigned during the run, so an id is
never reused. -/
theorem create_ids_unique_increasing (db : DB) (ops : List Op) (hInv : Inv db) :
    (createdIds db ops).Pairwise (· < ·) ∧
    ∀ r ∈ db.rows, ∀ a ∈ createdIds db ops, r.id < a :=
  ⟨createdIds_pairwise db ops,
   fun r hr a ha => lt_of_lt_of_le (hInv.2 r hr) (createdIds_lb db ops a ha)⟩

/-- Witness for C8: a create, a delete of the created row, and another create
assign ids 2 then 3, strictly increasing, both above the pre-existing id 1. -/
theorem create_ids_unique_increasing_witness :
    (createdIds ⟨[⟨1, "t", "c", "a", 0, 0⟩], 2⟩
      [.create 3 ⟨some "T", some "C", none⟩, .delete 2,
       .create 4 ⟨some "U", some "V", none⟩]).Pairwise (· < ·) ∧
    (⟨1, "t", "c", "a", 0, 0⟩ : Row).id < 2 := by
  have h := create_ids_unique_increasing ⟨[⟨1, "t", "c", "a", 0, 0⟩], 2⟩
    [.create 3 ⟨some "T", some "C", none⟩, .delete 2, .create 4 ⟨some "U", some "V", none⟩]
    ⟨by simp, by simp⟩
  exact ⟨h.1, h.2 ⟨1, "t", "c", "a", 0, 0⟩ (by simp) 2 (by decide)⟩

/-- Well-formed timestamps stay well-formed when the clock moves forward. -/
theorem goodRows_mono {db : DB} {t u : Nat} (h : GoodRows db t) (htu : t ≤ u) :
    GoodRows db u :=
  fun r hr => ⟨(h r hr).1, le_trans (h r hr).2 htu⟩

/-- A write operation executed at clock reading `u ≥ t` keeps the rows
well-formed at `u`: creates stamp both timestamps with `u`, updates refresh
`updated_at` to `u` and leave `created_at` alone. -/
theorem exec_goodRows_some {db : DB} {t u : Nat} {op : Op} (hg : GoodRows db t)
    (htime : op.time = some u) (htu : t ≤ u) : GoodRows (exec db op).2 u := by
  cases op with
  | create now b =>
    have hnu : now = u := by simpa [Op.time] using htime
    subst hnu
    intro r hr
    by_cases ht : falsy b.title
    · simp [exec, createPost, ht] at hr
      exact ⟨(hg r hr).1, le_trans (hg r hr).2 htu⟩
    · by_cases hc : falsy b.content
      · simp [exec, createPost, ht, hc] at hr
        exact ⟨(hg r hr).1, le_trans (hg r hr).2 htu⟩
      · simp [exec, createPost, ht, hc] at hr
        rcases hr with hr | rfl
        · exact ⟨(hg r hr).1, le_trans (hg r hr).2 htu⟩
        · exact ⟨le_refl _, le_refl _⟩
  | update now pid b =>
    have hnu : now = u := by simpa [Op.time] using htime
    subst hnu
    intro r hr
    by_cases ht : falsy b.title
    · simp [exec, updatePost, ht] at hr
      exact ⟨(hg r hr).1, le_trans (hg r hr).2 htu⟩
    · by_cases hc : falsy b.content
      · simp [exec, updatePost, ht, hc] at hr
        exact ⟨(hg r hr).1, le_trans (hg r hr).2 htu⟩
      · by_cases hz : db.rows.countP (fun r => r.id = pid) = 0
        · simp [exec, updatePost, ht, hc, hz] at hr
          exact ⟨(hg r hr).1, le_trans (hg r hr).2 htu⟩
        · have hmap : ∀ s ∈ db.rows,
              (applyUpdate pid now b s).created_at ≤ (applyUpdate pid now b s).updated_at ∧
              (applyUpdate pid now b s).updated_at ≤ now := by
            intro s hs
            have hgs := hg s hs
            unfold applyUpdate
            split
            · simp
              omega
            · exact ⟨hgs.1, le_trans hgs.2 htu⟩
          have hcomp : ((fun r : Row => r.id == pid) ∘ applyUpdate pid now b)
              = fun r : Row => r.id == pid := by
            funext r
            simp [Function.comp, applyUpdate_id]
          rcases hf : db.rows.find? (fun r => r.id == pid) with _ | r'
          · simp [exec, updatePost, ht, hc, hz, List.find?_map, hcomp, hf] at hr
            rcases hr with ⟨s, hs, rfl⟩
            exact hmap s hs
          · simp [exec, updatePost, ht, hc, hz, List.find?_map, hcomp, hf] at hr
            rcases hr with ⟨s, hs, rfl⟩
            exact hmap s hs
  | delete pid => simp [Op.time] at htime
  | list => simp [Op.time] at htime

/-- The read-only and delete operations keep the rows well-formed at the
current clock reading. -/
theorem exec_goodRows_none {db : DB} {t : Nat} {op : Op} (hg : GoodRows db t)
    (htime : op.time = none) : GoodRows (exec db op).2 t := by
  cases op with
  | create now b => simp [Op.time] at htime
  | update now pid b => simp [Op.time] at htime
  | delete pid =>
    intro r hr
    by_cases hz : db.rows.countP (fun r => r.id = pid) = 0
    · simp [exec, deletePost, hz] at hr
      exact hg r hr
    · simp [exec, deletePost, hz, List.mem_filter] at hr
      exact hg r hr.1
  | list =>
    intro r hr
    simp [exec] at hr
    exact hg r hr

/-- Every Post in the response of one operation run over well-formed rows has
`createdAt ≤ updatedAt`. -/
theorem respPosts_le {db : DB} {t : Nat} {op : Op} (hg : GoodRows db t)
    (hch : ∀ u, op.time = some u → t ≤ u) :
    ∀ p ∈ respPosts (exec db op).1, p.createdAt ≤ p.updatedAt := by
  intro p hp
  cases op with
  | list =>
    simp [exec, getPosts, respPosts] at hp
    rcases hp with ⟨r, hr, rfl⟩
    have hr' : r ∈ db.rows := (sortDesc_perm db.rows).mem_iff.mp hr
    exact (hg r hr').1
  | create now b =>
    by_cases ht : falsy b.title
    · simp [exec, createPost, ht, respPosts] at hp
    · by_cases hc : falsy b.content
      · simp [exec, createPost, ht, hc, respPosts] at hp
      · simp [exec, createPost, ht, hc, respPosts] at hp
        subst hp
        exact le_refl _
  | update now pid b =>
    have htn : t ≤ now := hch now rfl
    by_cases ht : falsy b.title
    · simp [exec, updatePost, ht, respPosts] at hp
    · by_cases hc : falsy b.content
      · simp [exec, updatePost, ht, hc, respPosts] at hp
      · by_cases hz : db.rows.countP (fun r => r.id = pid) = 0
        · simp [exec, updatePost, ht, hc, hz, respPosts] at hp
        · have hcomp : ((fun r : Row => r.id == pid) ∘ applyUpdate pid now b)
              = fun r : Row => r.id == pid := by
            funext r
            simp [Function.comp, applyUpdate_id]
          rcases hf : db.rows.find? (fun r => r.id == pid) with _ | r'
          · simp [exec, updatePost, ht, hc, hz, List.find?_map, hcomp, hf, respPosts] at hp
          · simp [exec, updatePost, ht, hc, hz, List.find?_map, hcomp, hf, respPosts] at hp
            subst hp
            have hs := List.mem_of_find?_eq_some hf
            have hgs := hg r' hs
            show (applyUpdate pid now b r').created_at ≤ (applyUpdate pid now b r').updated_at
            unfold applyUpdate
            split
            · simp
              omega
            · exact hgs.1
  | delete pid =>
    by_cases hz : db.rows.countP (fun r => r.id = pid) = 0
    · simp [exec, deletePost, hz, respPosts] at hp
    · simp [exec, deletePost, hz, respPosts] at hp

/-- Claim C6: starting from rows whose timestamps are well-formed at clock
reading `t` (true of the empty and the freshly seeded database) and running
any sequence of list, create, update and delete operations whose write times
never decrease, every Post any endpoint returns to the client satisfies
`createdAt ≤ updatedAt`. -/
theorem posts_created_le_updated (db : DB) (t : Nat) (ops : List Op)
    (hg : GoodRows db t) (hch : Chrono t ops) :
    ∀ p ∈ tracePosts db ops, p.createdAt ≤ p.updatedAt := by
  induction ops generalizing db t with
  | nil => simp [tracePosts]
  | cons op ops ih =>
    intro p hp
    simp only [tracePosts, List.mem_append] at hp
    cases htime : op.time with
    | none =>
      have hch' : Chrono t ops := by simpa [Chrono, htime] using hch
      rcases hp with hp | hp
      · exact respPosts_le hg (fun u hu => by rw [htime] at hu; cases hu) p hp
      · exact ih (exec db op).2 t (exec_goodRows_none hg htime) hch' p hp
    | some u =>
      have hch' : t ≤ u ∧ Chrono u ops := by simpa [Chrono, htime] using hch
      rcases hp with hp | hp
      · refine respPosts_le hg (fun v hv => ?_) p hp
        rw [htime] at hv
        cases hv
        exact hch'.1
      · exact ih (exec db op).2 u (exec_goodRows_some hg htime hch'.1) hch'.2 p hp

/-- Witness for C6: the Post returned by a create at time 1 from the empty
database satisfies the invariant. -/
theorem posts_created_le_updated_witness :
    (⟨1, "T", "C", "Anonymous", 1, 1⟩ : Post).createdAt ≤
      (⟨1, "T", "C", "Anonymous", 1, 1⟩ : Post).updatedAt :=
  posts_created_le_updated DB.empty 0 [.create 1 ⟨some "T", some "C", none⟩]
    (by intro r hr; simp [DB.empty] at hr) (by exact ⟨by omega, trivial⟩)
    ⟨1, "T", "C", "Anonymous", 1, 1⟩ (by decide)

end Blog
